import Mathlib

/-!
# Car multi-view animation: locomotion and camera rig

A shallow embedding of `src/car-multi-view-animation/main.js`: the key
handlers (lines 112-119), the module state (`viewMode`, `keys`, `speed`,
`turn`, `carGroup`, `wheels`, `camera.position`) and one frame of
`animate()` (lines 124-150).

Numbers are elements of an arbitrary field `K` (exact arithmetic): `ℚ`
evaluates the model, `ℝ` with `Real.sin` and `Real.cos` gives the
trigonometric reading.  The three.js primitives that `main.js` calls
(`MathUtils.lerp`, `Vector3.lerp`, `Vector3.applyMatrix4`,
`Vector3.applyQuaternion`, `Quaternion.setFromAxisAngle`,
`Quaternion.multiply`, `Matrix4.compose`, `Matrix4.multiplyMatrices`,
`Object3D.rotateY`, `Object3D.translateZ`, `Object3D.updateMatrixWorld`) are
transcribed from the library, keeping its names.
-/

namespace CarAnimation

/-! ## three.js value types -/

/-- The three.js `Vector3`. -/
structure Vector3 (K : Type) where
  x : K
  y : K
  z : K
  deriving DecidableEq

/-- The three.js `Quaternion` with components `x`, `y`, `z`, `w`. -/
structure Quaternion (K : Type) where
  x : K
  y : K
  z : K
  w : K
  deriving DecidableEq

/-- The three.js `Matrix4`: the sixteen entries of `elements`, column-major
(`e12`, `e13`, `e14` hold the translation). -/
structure Matrix4 (K : Type) where
  e0 : K
  e1 : K
  e2 : K
  e3 : K
  e4 : K
  e5 : K
  e6 : K
  e7 : K
  e8 : K
  e9 : K
  e10 : K
  e11 : K
  e12 : K
  e13 : K
  e14 : K
  e15 : K
  deriving DecidableEq

/-- The two functions of the JavaScript `Math` object that three.js uses in
`Quaternion.setFromAxisAngle`; they are a parameter of the model. -/
structure MathFns (K : Type) where
  sin : K → K
  cos : K → K

section Defs

variable {K : Type} [Field K]

/-- `THREE.MathUtils.lerp(x, y, t)`, which is `(1 - t) * x + t * y`. -/
def MathUtils.lerp (x y t : K) : K :=
  (1 - t) * x + t * y

/-- `Vector3.set(x, y, z)`. -/
def Vector3.set (x y z : K) : Vector3 K :=
  ⟨x, y, z⟩

/-- `Vector3.add(v)`. -/
def Vector3.add (a v : Vector3 K) : Vector3 K :=
  ⟨a.x + v.x, a.y + v.y, a.z + v.z⟩

/-- `Vector3.multiplyScalar(scalar)`. -/
def Vector3.multiplyScalar (a : Vector3 K) (scalar : K) : Vector3 K :=
  ⟨a.x * scalar, a.y * scalar, a.z * scalar⟩

/-- `Vector3.lerp(v, alpha)`: each component moves by `(v - this) * alpha`. -/
def Vector3.lerp (a v : Vector3 K) (alpha : K) : Vector3 K :=
  ⟨a.x + (v.x - a.x) * alpha, a.y + (v.y - a.y) * alpha, a.z + (v.z - a.z) * alpha⟩

/-- `Vector3.applyQuaternion(q)`: `v + q.w * t + cross(q.xyz, t)` with
`t = 2 * cross(q.xyz, v)`. -/
def Vector3.applyQuaternion (v : Vector3 K) (q : Quaternion K) : Vector3 K :=
  let tx := 2 * (q.y * v.z - q.z * v.y)
  let ty := 2 * (q.z * v.x - q.x * v.z)
  let tz := 2 * (q.x * v.y - q.y * v.x)
  ⟨v.x + q.w * tx + q.y * tz - q.z * ty,
   v.y + q.w * ty + q.z * tx - q.x * tz,
   v.z + q.w * tz + q.x * ty - q.y * tx⟩

/-- `Vector3.applyMatrix4(m)`, with its perspective divide. -/
def Vector3.applyMatrix4 (v : Vector3 K) (m : Matrix4 K) : Vector3 K :=
  let w := 1 / (m.e3 * v.x + m.e7 * v.y + m.e11 * v.z + m.e15)
  ⟨(m.e0 * v.x + m.e4 * v.y + m.e8 * v.z + m.e12) * w,
   (m.e1 * v.x + m.e5 * v.y + m.e9 * v.z + m.e13) * w,
   (m.e2 * v.x + m.e6 * v.y + m.e10 * v.z + m.e14) * w⟩

/-- `Quaternion.setFromAxisAngle(axis, angle)`. -/
def Quaternion.setFromAxisAngle (M : MathFns K) (axis : Vector3 K) (angle : K) :
    Quaternion K :=
  let halfAngle := angle / 2
  let s := M.sin halfAngle
  ⟨axis.x * s, axis.y * s, axis.z * s, M.cos halfAngle⟩

/-- `Quaternion.multiply(q)`, that is `multiplyQuaternions(this, q)`. -/
def Quaternion.multiply (a b : Quaternion K) : Quaternion K :=
  ⟨a.x * b.w + a.w * b.x + a.y * b.z - a.z * b.y,
   a.y * b.w + a.w * b.y + a.z * b.x - a.x * b.z,
   a.z * b.w + a.w * b.z + a.x * b.y - a.y * b.x,
   a.w * b.w - a.x * b.x - a.y * b.y - a.z * b.z⟩

/-- The identity `Matrix4`, the value of a fresh `matrix` or `matrixWorld`. -/
def Matrix4.identity : Matrix4 K :=
  ⟨1, 0, 0, 0,
   0, 1, 0, 0,
   0, 0, 1, 0,
   0, 0, 0, 1⟩

/-- `Matrix4.compose(position, quaternion, scale)`. -/
def Matrix4.compose (position : Vector3 K) (quaternion : Quaternion K)
    (scale : Vector3 K) : Matrix4 K :=
  let x := quaternion.x
  let y := quaternion.y
  let z := quaternion.z
  let w := quaternion.w
  let x2 := x + x
  let y2 := y + y
  let z2 := z + z
  let xx := x * x2
  let xy := x * y2
  let xz := x * z2
  let yy := y * y2
  let yz := y * z2
  let zz := z * z2
  let wx := w * x2
  let wy := w * y2
  let wz := w * z2
  let sx := scale.x
  let sy := scale.y
  let sz := scale.z
  ⟨(1 - (yy + zz)) * sx, (xy + wz) * sx, (xz - wy) * sx, 0,
   (xy - wz) * sy, (1 - (xx + zz)) * sy, (yz + wx) * sy, 0,
   (xz + wy) * sz, (yz - wx) * sz, (1 - (xx + yy)) * sz, 0,
   position.x, position.y, position.z, 1⟩

/-- `Matrix4.multiplyMatrices(a, b)`: the matrix product `a * b`. -/
def Matrix4.multiplyMatrices (a b : Matrix4 K) : Matrix4 K :=
  ⟨a.e0 * b.e0 + a.e4 * b.e1 + a.e8 * b.e2 + a.e12 * b.e3,
   a.e1 * b.e0 + a.e5 * b.e1 + a.e9 * b.e2 + a.e13 * b.e3,
   a.e2 * b.e0 + a.e6 * b.e1 + a.e10 * b.e2 + a.e14 * b.e3,
   a.e3 * b.e0 + a.e7 * b.e1 + a.e11 * b.e2 + a.e15 * b.e3,
   a.e0 * b.e4 + a.e4 * b.e5 + a.e8 * b.e6 + a.e12 * b.e7,
   a.e1 * b.e4 + a.e5 * b.e5 + a.e9 * b.e6 + a.e13 * b.e7,
   a.e2 * b.e4 + a.e6 * b.e5 + a.e10 * b.e6 + a.e14 * b.e7,
   a.e3 * b.e4 + a.e7 * b.e5 + a.e11 * b.e6 + a.e15 * b.e7,
   a.e0 * b.e8 + a.e4 * b.e9 + a.e8 * b.e10 + a.e12 * b.e11,
   a.e1 * b.e8 + a.e5 * b.e9 + a.e9 * b.e10 + a.e13 * b.e11,
   a.e2 * b.e8 + a.e6 * b.e9 + a.e10 * b.e10 + a.e14 * b.e11,
   a.e3 * b.e8 + a.e7 * b.e9 + a.e11 * b.e10 + a.e15 * b.e11,
   a.e0 * b.e12 + a.e4 * b.e13 + a.e8 * b.e14 + a.e12 * b.e15,
   a.e1 * b.e12 + a.e5 * b.e13 + a.e9 * b.e14 + a.e13 * b.e15,
   a.e2 * b.e12 + a.e6 * b.e13 + a.e10 * b.e14 + a.e14 * b.e15,
   a.e3 * b.e12 + a.e7 * b.e13 + a.e11 * b.e14 + a.e15 * b.e15⟩

/-! ## The scene graph node `carGroup` -/

/-- The part of the three.js `Object3D` that `animate()` reads and writes on
`carGroup`.  `position` and `quaternion` are the local pose, written by
`rotateY` and `translateZ`; `matrixWorld` is the cached world matrix, which
only `updateMatrixWorld` writes.  The scale stays `(1, 1, 1)` and the parent
`scene` keeps the identity world matrix. -/
structure Object3D (K : Type) where
  position : Vector3 K
  quaternion : Quaternion K
  matrixWorld : Matrix4 K
  deriving DecidableEq

/-- `Object3D.rotateY(angle)`: `rotateOnAxis` about the local axis `(0, 1, 0)`,
which multiplies the quaternion on the right.  The cached matrices are not
touched. -/
def Object3D.rotateY (M : MathFns K) (o : Object3D K) (angle : K) : Object3D K :=
  let q1 := Quaternion.setFromAxisAngle M ⟨0, 1, 0⟩ angle
  { o with quaternion := o.quaternion.multiply q1 }

/-- `Object3D.translateZ(distance)`: `translateOnAxis` along the local axis
`(0, 0, 1)`, rotated by the current quaternion.  The cached matrices are not
touched. -/
def Object3D.translateZ (o : Object3D K) (distance : K) : Object3D K :=
  let v1 := (Vector3.mk 0 0 1 : Vector3 K).applyQuaternion o.quaternion
  { o with position := o.position.add (v1.multiplyScalar distance) }

/-- `Object3D.updateMatrixWorld()` on `carGroup`, as `renderer.render` reaches
it through `scene.updateMatrixWorld()`: the local matrix is recomposed from the
pose and multiplied by the parent's world matrix, the identity. -/
def Object3D.updateMatrixWorld (o : Object3D K) : Object3D K :=
  let matrix := Matrix4.compose o.position o.quaternion ⟨1, 1, 1⟩
  { o with matrixWorld := Matrix4.multiplyMatrices Matrix4.identity matrix }

/-! ## Program state and key handlers -/

/-- The module-level mutable state of `main.js`.  `keys` is the object `keys`
read as a total map (an absent property is falsy), `wheels` holds the
`rotation.x` of each entry of the array `wheels`, and `cameraPosition` is
`camera.position`. -/
structure State (K : Type) where
  keys : String → Bool
  viewMode : String
  speed : K
  turn : K
  carGroup : Object3D K
  wheels : List K
  cameraPosition : Vector3 K

/-- The state when the module has been loaded, before the first call of
`animate()`: lines 13, 47, 93-100, 112, 121 and 122. -/
def State.initial : State K where
  keys := fun _ => false
  viewMode := "follow"
  speed := 0
  turn := 0
  carGroup := ⟨⟨0, 0, 0⟩, ⟨0, 0, 0, 1⟩, Matrix4.identity⟩
  wheels := [0, 0, 0, 0]
  cameraPosition := ⟨0, 0, 0⟩

/-- The `keydown` listener, lines 113-118; `key` is `e.key`.  The method
`toLowerCase` is read as `String.toLower`, which lower-cases the letters `A` to
`Z`; no other character has `w`, `s`, `a` or `d` as its lower case. -/
def keydown (s : State K) (key : String) : State K :=
  let s1 := { s with keys := fun k => if k = key.toLower then true else s.keys k }
  let s2 := if key = "1" then { s1 with viewMode := "follow" } else s1
  let s3 := if key = "2" then { s2 with viewMode := "top" } else s2
  if key = "3" then { s3 with viewMode := "side" } else s3

/-- The `keyup` listener, line 119. -/
def keyup (s : State K) (key : String) : State K :=
  { s with keys := fun k => if k = key.toLower then false else s.keys k }

/-! ## One frame -/

/-- Lines 127-129: the speed after the frame's smoothing step. -/
def animateSpeed (keys : String → Bool) (speed : K) : K :=
  if keys "w" then MathUtils.lerp speed 0.2 0.05
  else if keys "s" then MathUtils.lerp speed (-0.15) 0.05
  else MathUtils.lerp speed 0 0.03

/-- Lines 131-133: the turn rate of the frame. -/
def animateTurn (keys : String → Bool) : K :=
  if keys "a" then 0.03
  else if keys "d" then -0.03
  else 0

/-- Lines 140-143: the local camera offset of a view mode. -/
def camOffset (viewMode : String) : Vector3 K :=
  if viewMode = "follow" then Vector3.set 0 4 (-10)
  else if viewMode = "top" then Vector3.set 0 30 0.1
  else Vector3.set 12 2 0

/-- Line 145: `targetPos`, the offset carried through the cached world matrix
of `carGroup`. -/
def targetPos (viewMode : String) (carGroup : Object3D K) : Vector3 K :=
  (camOffset viewMode).applyMatrix4 carGroup.matrixWorld

/-- One call of `animate()`, lines 124-150, in the order of the source: speed,
turn, `rotateY`, `translateZ`, wheel spin, camera target and smoothing, and
last `renderer.render`, whose effect on this state is the refresh of
`carGroup.matrixWorld`.  The camera orientation written by `lookAt` is not
part of the state. -/
def animate (M : MathFns K) (s : State K) : State K :=
  let speed := animateSpeed s.keys s.speed
  let turn := animateTurn s.keys
  let car1 := s.carGroup.rotateY M (turn * (speed * 10))
  let car2 := car1.translateZ speed
  let wheels := s.wheels.map fun w => w + speed * 2.5
  let target := targetPos s.viewMode car2
  let cameraPosition := s.cameraPosition.lerp target 0.1
  let car3 := car2.updateMatrixWorld
  { s with speed := speed, turn := turn, carGroup := car3, wheels := wheels,
           cameraPosition := cameraPosition }

/-! ## Traces -/

/-- What the browser delivers to the module: a key event or a display
refresh that runs `animate()`. -/
inductive Event where
  | keydown (key : String)
  | keyup (key : String)
  | frame
  deriving DecidableEq

/-- The reaction of the module to one event. -/
def step (M : MathFns K) (s : State K) : Event → State K
  | .keydown key => keydown s key
  | .keyup key => keyup s key
  | .frame => animate M s

/-- The state after a finite sequence of events. -/
def run (M : MathFns K) (s : State K) (es : List Event) : State K :=
  es.foldl (step M) s

/-! ## Names for intermediate values of a frame -/

/-- The node `carGroup` when line 145 runs: after this frame's `rotateY` and
`translateZ` (lines 135-136) and before `renderer.render`. -/
def animateCar (M : MathFns K) (s : State K) : Object3D K :=
  (s.carGroup.rotateY M (animateTurn s.keys * (animateSpeed s.keys s.speed * 10))).translateZ
    (animateSpeed s.keys s.speed)

/-- The value of `targetPos` that line 145 computes in a frame. -/
def animateTarget (M : MathFns K) (s : State K) : Vector3 K :=
  targetPos s.viewMode (animateCar M s)

/-- Line 147: the point handed to `camera.lookAt`, the position of `carGroup`
as this frame's `rotateY` and `translateZ` left it. -/
def animateLookAt (M : MathFns K) (s : State K) : Vector3 K :=
  (animateCar M s).position

/-- The world matrix that belongs to a pose: what `updateMatrixWorld` would
store for it. -/
def Object3D.poseMatrix (o : Object3D K) : Matrix4 K :=
  o.updateMatrixWorld.matrixWorld

/-- The quaternion of a rotation by `heading` about the vertical axis, as
`setFromAxisAngle` builds it. -/
def yawQuaternion (M : MathFns K) (heading : K) : Quaternion K :=
  Quaternion.setFromAxisAngle M ⟨0, 1, 0⟩ heading

/-- The laws of exact sine and cosine that the trigonometric reading of a
rotation needs. -/
structure MathFns.Exact (M : MathFns K) : Prop where
  sin_zero : M.sin 0 = 0
  cos_zero : M.cos 0 = 1
  sin_add : ∀ a b, M.sin (a + b) = M.sin a * M.cos b + M.cos a * M.sin b
  cos_add : ∀ a b, M.cos (a + b) = M.cos a * M.cos b - M.sin a * M.sin b
  sin_sq_add_cos_sq : ∀ a, M.sin a * M.sin a + M.cos a * M.cos a = 1

/-! ## The camera mode as the specification words it -/

/-- The mode a key selects: `1` follow, `2` top, `3` side, no other key any. -/
def modeOfKey (key : String) : Option String :=
  if key = "1" then some "follow"
  else if key = "2" then some "top"
  else if key = "3" then some "side"
  else none

/-- The mode an event selects: only a `keydown` of a mode key selects one. -/
def modeOfEvent : Event → Option String
  | .keydown key => modeOfKey key
  | .keyup _ => none
  | .frame => none

/-- Last write wins: the mode of the last mode-selecting event of the trace,
and `follow` when there is none. -/
def lastModeSpec (es : List Event) : String :=
  ((es.filterMap modeOfEvent).getLast?).getD "follow"

/-! ## What the program reads of its state -/

/-- The part of the state that the handlers and `animate()` ever read: the four
motion controls `keys['w']`, `keys['s']`, `keys['a']`, `keys['d']`, and every
other variable.  The remaining properties of `keys` are written but never
read. -/
def State.view (s : State K) :
    (Bool × Bool × Bool × Bool) × String × K × K × Object3D K × List K × Vector3 K :=
  ((s.keys "w", s.keys "s", s.keys "a", s.keys "d"), s.viewMode, s.speed, s.turn,
    s.carGroup, s.wheels, s.cameraPosition)

end Defs

/-! ## Speed smoothing -/

/-- The library's `lerp` is the usual `a + (b - a) * t`. -/
theorem MathUtils.lerp_eq {K : Type} [Field K] (a b t : K) :
    MathUtils.lerp a b t = a + (b - a) * t := by
  unfold MathUtils.lerp
  ring

/-- The `keydown` handler does not write `speed`. -/
theorem keydown_speed {K : Type} [Field K] (s : State K) (key : String) :
    (keydown s key).speed = s.speed := by
  unfold keydown
  simp only []
  split_ifs <;> rfl

/-- The `keyup` handler does not write `speed`. -/
theorem keyup_speed {K : Type} [Field K] (s : State K) (key : String) :
    (keyup s key).speed = s.speed := rfl

/-- The speed a frame leaves is the smoothed one. -/
theorem animate_speed {K : Type} [Field K] (M : MathFns K) (s : State K) :
    (animate M s).speed = animateSpeed s.keys s.speed := rfl

/-- A frame does not write `keys`. -/
theorem animate_keys {K : Type} [Field K] (M : MathFns K) (s : State K) :
    (animate M s).keys = s.keys := rfl

/-- One smoothing step keeps the speed between the two targets. -/
theorem animateSpeed_bounds {K : Type} [LinearOrderedField K] (keys : String → Bool) (v : K)
    (h : -0.15 ≤ v ∧ v ≤ 0.2) :
    -0.15 ≤ animateSpeed keys v ∧ animateSpeed keys v ≤ 0.2 := by
  obtain ⟨h1, h2⟩ := h
  unfold animateSpeed MathUtils.lerp
  split_ifs <;> constructor <;> norm_num at * <;> linarith

/-- Every event keeps the speed between the two targets. -/
theorem step_speed_bounds {K : Type} [LinearOrderedField K] (M : MathFns K) (s : State K)
    (e : Event)
    (h : -0.15 ≤ s.speed ∧ s.speed ≤ 0.2) :
    -0.15 ≤ (step M s e).speed ∧ (step M s e).speed ≤ 0.2 := by
  cases e with
  | keydown key => simpa [step, keydown_speed] using h
  | keyup key => simpa [step, keyup_speed] using h
  | frame => simpa [step, animate_speed] using animateSpeed_bounds s.keys s.speed h

/-- Every trace keeps the speed between the two targets. -/
theorem run_speed_bounds {K : Type} [LinearOrderedField K] (M : MathFns K) (es : List Event) :
    ∀ s : State K, (-0.15 ≤ s.speed ∧ s.speed ≤ 0.2) →
      -0.15 ≤ (run M s es).speed ∧ (run M s es).speed ≤ 0.2 := by
  induction es with
  | nil => intro s h; simpa [run] using h
  | cons e es ih =>
    intro s h
    have := ih (step M s e) (step_speed_bounds M s e h)
    simpa [run] using this

theorem run_nil {K : Type} [Field K] (M : MathFns K) (s : State K) : run M s [] = s := rfl

theorem run_cons {K : Type} [Field K] (M : MathFns K) (s : State K) (e : Event)
    (es : List Event) : run M s (e :: es) = run M (step M s e) es := rfl

/-- The `keydown` handler sets the lower-cased key and leaves the others. -/
theorem keydown_keys {K : Type} [Field K] (s : State K) (key k : String) :
    (keydown s key).keys k = if k = key.toLower then true else s.keys k := by
  unfold keydown
  by_cases h1 : key = "1" <;> by_cases h2 : key = "2" <;> by_cases h3 : key = "3" <;>
    simp [h1, h2, h3]

/-- The `keyup` handler clears the lower-cased key and leaves the others. -/
theorem keyup_keys {K : Type} [Field K] (s : State K) (key k : String) :
    (keyup s key).keys k = if k = key.toLower then false else s.keys k := rfl

/-- The key `w` is its own lower case. -/
theorem toLower_w : "w".toLower = "w" := by
  rw [String.toLower, String.map_eq]
  rfl

/-- C1 (speed bound invariant): from any state with `speed = 0`, after every
finite sequence of key events and frames, whatever keys are held in each frame,
the speed lies in `[-0.15, 0.2]`. -/
theorem speed_bound_invariant {K : Type} [LinearOrderedField K] (M : MathFns K)
    (s : State K) (h0 : s.speed = 0) (es : List Event) :
    -0.15 ≤ (run M s es).speed ∧ (run M s es).speed ≤ 0.2 := by
  apply run_speed_bounds
  rw [h0]
  constructor <;> norm_num

theorem speed_bound_invariant_witness :
    (State.initial : State ℝ).speed = 0 ∧
    (-0.15 ≤ (run ⟨Real.sin, Real.cos⟩ (State.initial : State ℝ)
        [Event.frame, Event.keydown "w", Event.frame, Event.keydown "a", Event.frame,
         Event.keyup "w", Event.keydown "s", Event.frame]).speed ∧
      (run ⟨Real.sin, Real.cos⟩ (State.initial : State ℝ)
        [Event.frame, Event.keydown "w", Event.frame, Event.keydown "a", Event.frame,
         Event.keyup "w", Event.keydown "s", Event.frame]).speed ≤ 0.2) :=
  ⟨rfl, speed_bound_invariant _ _ rfl _⟩

/-- A frame does not write `viewMode`. -/
theorem animate_viewMode {K : Type} [Field K] (M : MathFns K) (s : State K) :
    (animate M s).viewMode = s.viewMode := rfl

/-- The turn rate a frame leaves. -/
theorem animate_turn {K : Type} [Field K] (M : MathFns K) (s : State K) :
    (animate M s).turn = animateTurn s.keys := rfl

/-- The node a frame leaves is the moved node with its world matrix refreshed. -/
theorem animate_carGroup {K : Type} [Field K] (M : MathFns K) (s : State K) :
    (animate M s).carGroup = (animateCar M s).updateMatrixWorld := rfl

/-- The camera position a frame leaves is the smoothing step toward the
target of line 145. -/
theorem animate_cameraPosition {K : Type} [Field K] (M : MathFns K) (s : State K) :
    (animate M s).cameraPosition = s.cameraPosition.lerp (animateTarget M s) 0.1 := rfl

/-- The wheel angles a frame leaves. -/
theorem animate_wheels {K : Type} [Field K] (M : MathFns K) (s : State K) :
    (animate M s).wheels = s.wheels.map fun w => w + animateSpeed s.keys s.speed * 2.5 := rfl

/-- The target of the first frame: the follow offset through the identity. -/
theorem animateTarget_initial {K : Type} [LinearOrderedField K] (M : MathFns K) :
    animateTarget M (State.initial : State K) = ⟨0, 4, -10⟩ := by
  simp [animateTarget, targetPos, animateCar, Object3D.translateZ, Object3D.rotateY,
    State.initial, camOffset, Vector3.set, Vector3.applyMatrix4, Matrix4.identity]

/-- C5 (camera smoothing): in every frame, for every view mode, the new camera
position is `p + 0.1 * (target - p)`, so its offset from the target is scaled
by `0.9` in each component and a camera off the target does not land on it.
From the initial state (mode follow, vehicle at the origin, identity rotation)
the target is `(0, 4, -10)` and the camera moves from `(0, 0, 0)` to
`(0, 0.4, -1.0)`. -/
theorem camera_smoothing {K : Type} [LinearOrderedField K] (M : MathFns K) (s : State K) :
    (animate M s).cameraPosition =
        ⟨s.cameraPosition.x + 0.1 * ((animateTarget M s).x - s.cameraPosition.x),
         s.cameraPosition.y + 0.1 * ((animateTarget M s).y - s.cameraPosition.y),
         s.cameraPosition.z + 0.1 * ((animateTarget M s).z - s.cameraPosition.z)⟩ ∧
      ((animate M s).cameraPosition.x - (animateTarget M s).x
          = 0.9 * (s.cameraPosition.x - (animateTarget M s).x) ∧
        (animate M s).cameraPosition.y - (animateTarget M s).y
          = 0.9 * (s.cameraPosition.y - (animateTarget M s).y) ∧
        (animate M s).cameraPosition.z - (animateTarget M s).z
          = 0.9 * (s.cameraPosition.z - (animateTarget M s).z)) ∧
      (s.cameraPosition ≠ animateTarget M s →
        (animate M s).cameraPosition ≠ animateTarget M s) ∧
      (State.initial : State K).viewMode = "follow" ∧
      (State.initial : State K).cameraPosition = ⟨0, 0, 0⟩ ∧
      animateTarget M (State.initial : State K) = ⟨0, 4, -10⟩ ∧
      (animate M (State.initial : State K)).cameraPosition = ⟨0, 0.4, -1.0⟩ := by
  have hx : (animate M s).cameraPosition.x - (animateTarget M s).x
      = 0.9 * (s.cameraPosition.x - (animateTarget M s).x) := by
    simp only [animate_cameraPosition, Vector3.lerp]
    norm_num
    ring
  have hy : (animate M s).cameraPosition.y - (animateTarget M s).y
      = 0.9 * (s.cameraPosition.y - (animateTarget M s).y) := by
    simp only [animate_cameraPosition, Vector3.lerp]
    norm_num
    ring
  have hz : (animate M s).cameraPosition.z - (animateTarget M s).z
      = 0.9 * (s.cameraPosition.z - (animateTarget M s).z) := by
    simp only [animate_cameraPosition, Vector3.lerp]
    norm_num
    ring
  refine ⟨?_, ⟨hx, hy, hz⟩, ?_, rfl, rfl, animateTarget_initial M, ?_⟩
  · simp only [animate_cameraPosition, Vector3.lerp, Vector3.mk.injEq]
    refine ⟨?_, ?_, ?_⟩ <;> ring
  · intro hne heq
    apply hne
    have h9 : (0.9 : K) ≠ 0 := by norm_num
    rw [heq] at hx hy hz
    have ex : s.cameraPosition.x = (animateTarget M s).x := by
      have := hx.symm
      rw [sub_self, mul_eq_zero] at this
      rcases this with h | h
      · exact absurd h h9
      · exact sub_eq_zero.mp h
    have ey : s.cameraPosition.y = (animateTarget M s).y := by
      have := hy.symm
      rw [sub_self, mul_eq_zero] at this
      rcases this with h | h
      · exact absurd h h9
      · exact sub_eq_zero.mp h
    have ez : s.cameraPosition.z = (animateTarget M s).z := by
      have := hz.symm
      rw [sub_self, mul_eq_zero] at this
      rcases this with h | h
      · exact absurd h h9
      · exact sub_eq_zero.mp h
    cases hp : s.cameraPosition
    cases ht : animateTarget M s
    rw [hp, ht] at ex ey ez
    simp only at ex ey ez
    rw [ex, ey, ez]
  · rw [animate_cameraPosition, animateTarget_initial]
    simp only [State.initial, Vector3.lerp, Vector3.mk.injEq]
    refine ⟨?_, ?_, ?_⟩ <;> norm_num

theorem camera_smoothing_witness :
    ((⟨1, 2, 3⟩ : Vector3 ℝ) ≠ animateTarget ⟨Real.sin, Real.cos⟩
        { (State.initial : State ℝ) with cameraPosition := ⟨1, 2, 3⟩ }) ∧
    (animate ⟨Real.sin, Real.cos⟩
        { (State.initial : State ℝ) with cameraPosition := ⟨1, 2, 3⟩ }).cameraPosition
      ≠ animateTarget ⟨Real.sin, Real.cos⟩
        { (State.initial : State ℝ) with cameraPosition := ⟨1, 2, 3⟩ } :=
  have h : ((⟨1, 2, 3⟩ : Vector3 ℝ) ≠ animateTarget ⟨Real.sin, Real.cos⟩
        { (State.initial : State ℝ) with cameraPosition := ⟨1, 2, 3⟩ }) := by
    have : animateTarget ⟨Real.sin, Real.cos⟩
        { (State.initial : State ℝ) with cameraPosition := ⟨1, 2, 3⟩ } = ⟨0, 4, -10⟩ :=
      animateTarget_initial _
    rw [this]
    simp
  ⟨h, (camera_smoothing _ _).2.2.1 h⟩

/-! ## Steering and wheels -/

/-- The key `a` is its own lower case. -/
theorem toLower_a : "a".toLower = "a" := by
  rw [String.toLower, String.map_eq]
  rfl

/-- A rotation by the angle zero leaves the quaternion as it is. -/
theorem Object3D.rotateY_zero {K : Type} [Field K] (M : MathFns K) (hsin : M.sin 0 = 0)
    (hcos : M.cos 0 = 1) (o : Object3D K) : o.rotateY M 0 = o := by
  cases o with
  | mk p q m =>
    cases q
    simp [Object3D.rotateY, Quaternion.setFromAxisAngle, Quaternion.multiply, hsin, hcos]

/-- The smoothing step from rest without `w` or `s` stays at rest. -/
theorem animateSpeed_rest {K : Type} [Field K] (keys : String → Bool)
    (hw : keys "w" = false) (hs : keys "s" = false) : animateSpeed keys (0 : K) = 0 := by
  simp [animateSpeed, hw, hs, MathUtils.lerp]

/-- C6 (turn is speed-gated): in a frame whose speed, the one line 135 reads,
is `0`, the yaw handed to `rotateY` is `0` for every state of `a` and `d`, and
the quaternion of the vehicle is unchanged; such a frame is any frame from
rest with neither `w` nor `s` held. -/
theorem turn_speed_gated {K : Type} [Field K] (M : MathFns K) (hsin : M.sin 0 = 0)
    (hcos : M.cos 0 = 1) (s : State K) (h0 : (animate M s).speed = 0) :
    animateTurn s.keys * ((animate M s).speed * 10) = 0 ∧
      (animate M s).carGroup.quaternion = s.carGroup.quaternion ∧
      (animate M s).carGroup.position = s.carGroup.position ∧
      (∀ keys : String → Bool, keys "w" = false → keys "s" = false →
        (animate M { s with keys := keys, speed := 0 }).carGroup.quaternion
          = s.carGroup.quaternion) := by
  have key : ∀ t : State K, (animate M t).speed = 0 →
      animateCar M t = t.carGroup := by
    intro t ht
    rw [animate_speed] at ht
    unfold animateCar
    rw [ht]
    simp only [zero_mul, mul_zero, Object3D.rotateY_zero M hsin hcos]
    cases hc : t.carGroup with
    | mk p q m =>
      cases p
      simp [Object3D.translateZ, Vector3.add, Vector3.multiplyScalar]
  refine ⟨by rw [h0]; simp, ?_, ?_, ?_⟩
  · rw [animate_carGroup, key s h0]
    rfl
  · rw [animate_carGroup, key s h0]
    rfl
  · intro keys hw hs
    rw [animate_carGroup, key _ (by rw [animate_speed]; exact animateSpeed_rest keys hw hs)]
    rfl

theorem turn_speed_gated_witness :
    (animate ⟨Real.sin, Real.cos⟩
        (keydown (State.initial : State ℝ) "a")).speed = 0 ∧
    (animate ⟨Real.sin, Real.cos⟩ (keydown (State.initial : State ℝ) "a")).carGroup.quaternion
      = (keydown (State.initial : State ℝ) "a").carGroup.quaternion :=
  have h : (animate ⟨Real.sin, Real.cos⟩
        (keydown (State.initial : State ℝ) "a")).speed = 0 := by
    rw [animate_speed, keydown_speed]
    apply animateSpeed_rest
    · rw [keydown_keys]
      simp [State.initial, toLower_a]
    · rw [keydown_keys]
      simp [State.initial, toLower_a]
  ⟨h, (turn_speed_gated ⟨Real.sin, Real.cos⟩ Real.sin_zero Real.cos_zero _ h).2.1⟩

/-- The module state has four wheels after every trace. -/
theorem run_wheels_length {K : Type} [Field K] (M : MathFns K) (es : List Event) :
    ∀ s : State K, (run M s es).wheels.length = s.wheels.length := by
  induction es with
  | nil => intro s; rfl
  | cons e es ih =>
    intro s
    rw [run_cons, ih]
    cases e with
    | keydown key =>
      simp only [step]
      unfold keydown
      by_cases h1 : key = "1" <;> by_cases h2 : key = "2" <;> by_cases h3 : key = "3" <;>
        simp [h1, h2, h3]
    | keyup key => rfl
    | frame => simp [step, animate_wheels]

/-- C7 (wheel spin): a frame adds exactly `speed * 2.5`, with the frame's
updated speed, to the spin angle of every wheel; the increment does not depend
on the state of `a` and `d`; and the wheels are four after every trace. -/
theorem wheel_spin {K : Type} [Field K] (M : MathFns K) (s : State K) :
    (animate M s).wheels = s.wheels.map (fun w => w + (animate M s).speed * 2.5) ∧
      (∀ i : ℕ, (animate M s).wheels[i]? =
        (s.wheels[i]?).map (fun w => w + (animate M s).speed * 2.5)) ∧
      (∀ a d : Bool,
        (animate M { s with keys := fun k =>
            if k = "a" then a else if k = "d" then d else s.keys k }).wheels
          = (animate M s).wheels) ∧
      (∀ es : List Event, (run M (State.initial : State K) es).wheels.length = 4) := by
  refine ⟨rfl, ?_, ?_, ?_⟩
  · intro i
    rw [animate_wheels, animate_speed, List.getElem?_map]
  · intro a d
    simp [animate_wheels, animateSpeed]
  · intro es
    rw [run_wheels_length]
    rfl

/-! ## Camera mode -/

/-- The `keydown` handler writes the mode its key selects, if any. -/
theorem keydown_viewMode {K : Type} [Field K] (s : State K) (key : String) :
    (keydown s key).viewMode = (modeOfKey key).getD s.viewMode := by
  unfold keydown modeOfKey
  by_cases h1 : key = "1"
  · subst h1
    simp
  · by_cases h2 : key = "2"
    · subst h2
      simp
    · by_cases h3 : key = "3"
      · subst h3
        simp
      · simp [h1, h2, h3]

/-- The `keyup` handler does not write `viewMode`. -/
theorem keyup_viewMode {K : Type} [Field K] (s : State K) (key : String) :
    (keyup s key).viewMode = s.viewMode := rfl

/-- Every event writes the mode it selects, if any. -/
theorem step_viewMode {K : Type} [Field K] (M : MathFns K) (s : State K) (e : Event) :
    (step M s e).viewMode = (modeOfEvent e).getD s.viewMode := by
  cases e with
  | keydown key => exact keydown_viewMode s key
  | keyup key => rfl
  | frame => rfl

/-- The state after a trace extended by one event. -/
theorem run_append_singleton {K : Type} [Field K] (M : MathFns K) (s : State K)
    (es : List Event) (e : Event) : run M s (es ++ [e]) = step M (run M s es) e := by
  simp [run, List.foldl_append]

/-- The mode after a trace from any state: last write wins over the mode of
the start. -/
theorem run_viewMode {K : Type} [Field K] (M : MathFns K) (s : State K) (es : List Event) :
    (run M s es).viewMode = ((es.filterMap modeOfEvent).getLast?).getD s.viewMode := by
  induction es using List.reverseRecOn with
  | nil => rfl
  | append_singleton es e ih =>
    rw [run_append_singleton, step_viewMode, ih, List.filterMap_append]
    cases he : modeOfEvent e with
    | none => simp [List.filterMap, he]
    | some m => simp [List.filterMap, he]

/-- C8 (camera mode is last-write-wins): after every finite sequence of events
from the initial state, `viewMode` is the mode of the last `keydown` of `1`
(follow), `2` (top) or `3` (side), or `follow` if there is none; `keyup`,
frames and `keydown` of any other key leave `viewMode` as it is; `keydown 1`
then `keydown 2` leaves `top`. -/
theorem viewMode_last_write_wins {K : Type} [Field K] (M : MathFns K) (es : List Event) :
    (run M (State.initial : State K) es).viewMode = lastModeSpec es ∧
      (∀ (s : State K) (key : String), (keyup s key).viewMode = s.viewMode) ∧
      (∀ s : State K, (animate M s).viewMode = s.viewMode) ∧
      (∀ (s : State K) (key : String),
        (keydown s key).viewMode =
          if key = "1" then "follow" else if key = "2" then "top"
          else if key = "3" then "side" else s.viewMode) ∧
      (run M (State.initial : State K) [Event.keydown "1", Event.keydown "2"]).viewMode
        = "top" := by
  refine ⟨?_, fun _ _ => rfl, fun _ => rfl, ?_, ?_⟩
  · rw [run_viewMode]
    rfl
  · intro s key
    rw [keydown_viewMode]
    unfold modeOfKey
    split_ifs <;> rfl
  · rw [run_viewMode]
    simp [modeOfEvent, modeOfKey]

/-! ## Keys that are not controls -/

/-- A character whose lower case is a given non-capital character is that
character or its capital. -/
theorem toLower_char_eq (c t : Char) (h : c.toLower = t) :
    c = t ∨ c.toNat + 32 = t.toNat := by
  unfold Char.toLower at h
  simp only at h
  split_ifs at h with hc
  · right
    obtain ⟨h1, h2⟩ := hc
    rw [← h]
    generalize c.toNat = n at *
    interval_cases n <;> rfl
  · left
    exact h

/-- Characters with the same code are equal. -/
theorem char_eq_of_toNat_eq (c d : Char) (h : c.toNat = d.toNat) : c = d := by
  apply Char.ext
  apply UInt32.ext
  exact h

/-- A key whose lower case is the one-letter string of `t` is that string or
the one-letter string of the capital `u` of `t`. -/
theorem toLower_eq_letter (key : String) (t u : Char) (hu : u.toNat + 32 = t.toNat)
    (h : key.toLower = String.mk [t]) : key = String.mk [t] ∨ key = String.mk [u] := by
  rw [String.toLower, String.map_eq] at h
  have hd : key.data.map Char.toLower = [t] := congrArg String.data h
  obtain ⟨l⟩ := key
  simp only at hd
  match l, hd with
  | [c], hd =>
    simp only [List.map_cons, List.map_nil, List.cons.injEq, and_true] at hd
    rcases toLower_char_eq c t hd with h1 | h1
    · left
      rw [h1]
    · right
      have : c = u := char_eq_of_toNat_eq c u (by omega)
      rw [this]

/-- A key outside `w`, `W`, `s`, `S`, `a`, `A`, `d`, `D` lower-cases to none of
the four controls. -/
theorem toLower_not_control (key : String)
    (hk : key ∉ ["w", "W", "s", "S", "a", "A", "d", "D"]) :
    "w" ≠ key.toLower ∧ "s" ≠ key.toLower ∧ "a" ≠ key.toLower ∧ "d" ≠ key.toLower := by
  simp only [List.mem_cons, List.mem_singleton, List.not_mem_nil, or_false, not_or] at hk
  obtain ⟨h1, h2, h3, h4, h5, h6, h7, h8⟩ := hk
  refine ⟨?_, ?_, ?_, ?_⟩
  · intro h
    rcases toLower_eq_letter key 'w' 'W' (by decide) h.symm with e | e
    · exact h1 e
    · exact h2 e
  · intro h
    rcases toLower_eq_letter key 's' 'S' (by decide) h.symm with e | e
    · exact h3 e
    · exact h4 e
  · intro h
    rcases toLower_eq_letter key 'a' 'A' (by decide) h.symm with e | e
    · exact h5 e
    · exact h6 e
  · intro h
    rcases toLower_eq_letter key 'd' 'D' (by decide) h.symm with e | e
    · exact h7 e
    · exact h8 e

/-- The `keydown` handler writes only `keys` and `viewMode`. -/
theorem keydown_rest {K : Type} [Field K] (s : State K) (key : String) :
    (keydown s key).turn = s.turn ∧ (keydown s key).carGroup = s.carGroup ∧
      (keydown s key).wheels = s.wheels ∧
      (keydown s key).cameraPosition = s.cameraPosition := by
  unfold keydown
  by_cases h1 : key = "1" <;> by_cases h2 : key = "2" <;> by_cases h3 : key = "3" <;>
    simp [h1, h2, h3]

/-- A frame reads its state only through the view. -/
theorem animate_view_congr {K : Type} [Field K] (M : MathFns K) (s t : State K)
    (h : s.view = t.view) : (animate M s).view = (animate M t).view := by
  simp only [State.view, Prod.mk.injEq] at h
  obtain ⟨⟨hw, hs, ha, hd⟩, hv, hsp, -, hc, hwh, hcam⟩ := h
  simp only [State.view, animate, animateSpeed, animateTurn, hw, hs, ha, hd, hv, hsp, hc,
    hwh, hcam]

/-- C9 (unrecognized keys are ignored): a `keydown` or `keyup` of a key that is
none of `w`, `s`, `a`, `d` in either case and none of `1`, `2`, `3` leaves the
four motion controls, `viewMode` and every other variable the program reads
unchanged, so the next frame gives the same result as without the event. -/
theorem unrecognized_keys_ignored {K : Type} [Field K] (M : MathFns K) (s : State K)
    (key : String)
    (hk : key ∉ ["w", "W", "s", "S", "a", "A", "d", "D", "1", "2", "3"]) :
    (keydown s key).view = s.view ∧ (keyup s key).view = s.view ∧
      (animate M (keydown s key)).view = (animate M s).view ∧
      (animate M (keyup s key)).view = (animate M s).view := by
  have hk' : key ∉ ["w", "W", "s", "S", "a", "A", "d", "D"] := by
    intro h
    apply hk
    simp only [List.mem_cons, List.mem_singleton, List.not_mem_nil, or_false] at h ⊢
    tauto
  have hm : modeOfKey key = none := by
    simp only [List.mem_cons, List.mem_singleton, List.not_mem_nil, or_false, not_or] at hk
    simp [modeOfKey, hk.2.2.2.2.2.2.2.2.1, hk.2.2.2.2.2.2.2.2.2.1, hk.2.2.2.2.2.2.2.2.2.2]
  obtain ⟨hw, hs, ha, hd⟩ := toLower_not_control key hk'
  have hdown : (keydown s key).view = s.view := by
    obtain ⟨ht, hc, hwh, hcam⟩ := keydown_rest s key
    simp only [State.view, keydown_keys, keydown_viewMode, keydown_speed, hm, ht, hc, hwh,
      hcam, if_neg hw, if_neg hs, if_neg ha, if_neg hd, Option.getD_none]
  have hup : (keyup s key).view = s.view := by
    simp only [State.view, keyup_keys, if_neg hw, if_neg hs, if_neg ha, if_neg hd]
    rfl
  exact ⟨hdown, hup, animate_view_congr M _ _ hdown, animate_view_congr M _ _ hup⟩

theorem unrecognized_keys_ignored_witness :
    "Shift" ∉ ["w", "W", "s", "S", "a", "A", "d", "D", "1", "2", "3"] ∧
    (animate ⟨Real.sin, Real.cos⟩ (keydown (State.initial : State ℝ) "Shift")).view
      = (animate ⟨Real.sin, Real.cos⟩ (State.initial : State ℝ)).view :=
  ⟨by decide, (unrecognized_keys_ignored _ _ "Shift" (by decide)).2.2.1⟩

/-! ## Rotation about the vertical axis -/

/-- Doubling the half angle: the sine. -/
theorem MathFns.Exact.sin_double {K : Type} [LinearOrderedField K] {M : MathFns K}
    (hM : M.Exact) (a : K) : M.sin a = 2 * (M.sin (a / 2) * M.cos (a / 2)) := by
  have h := hM.sin_add (a / 2) (a / 2)
  rw [add_halves] at h
  rw [h]
  ring

/-- Doubling the half angle: the cosine. -/
theorem MathFns.Exact.cos_double {K : Type} [LinearOrderedField K] {M : MathFns K}
    (hM : M.Exact) (a : K) : M.cos a = 1 - 2 * (M.sin (a / 2) * M.sin (a / 2)) := by
  have h := hM.cos_add (a / 2) (a / 2)
  have hp := hM.sin_sq_add_cos_sq (a / 2)
  rw [add_halves] at h
  rw [h]
  linear_combination hp

/-- Two yaw rotations compose to the yaw rotation of the summed headings. -/
theorem yawQuaternion_multiply {K : Type} [LinearOrderedField K] {M : MathFns K}
    (hM : M.Exact) (a b : K) :
    (yawQuaternion M a).multiply (Quaternion.setFromAxisAngle M ⟨0, 1, 0⟩ b)
      = yawQuaternion M (a + b) := by
  simp only [yawQuaternion, Quaternion.setFromAxisAngle, Quaternion.multiply,
    Quaternion.mk.injEq, add_div, hM.sin_add, hM.cos_add]
  refine ⟨?_, ?_, ?_, ?_⟩ <;> ring

/-- The local forward axis of a yaw rotation is `(sin h, 0, cos h)`. -/
theorem applyQuaternion_forward {K : Type} [LinearOrderedField K] {M : MathFns K}
    (hM : M.Exact) (h : K) :
    (Vector3.mk 0 0 1 : Vector3 K).applyQuaternion (yawQuaternion M h)
      = ⟨M.sin h, 0, M.cos h⟩ := by
  simp only [yawQuaternion, Quaternion.setFromAxisAngle, Vector3.applyQuaternion,
    Vector3.mk.injEq, hM.sin_double h, hM.cos_double h]
  refine ⟨?_, ?_, ?_⟩ <;> ring

/-- The moved node of a frame, for a vehicle with heading `h`. -/
theorem animateCar_of_heading {K : Type} [LinearOrderedField K] {M : MathFns K}
    (hM : M.Exact) (s : State K) (h : K) (hq : s.carGroup.quaternion = yawQuaternion M h) :
    (animateCar M s).quaternion
        = yawQuaternion M (h + animateTurn s.keys * (animateSpeed s.keys s.speed * 10)) ∧
      (animateCar M s).position
        = ⟨s.carGroup.position.x + animateSpeed s.keys s.speed
              * M.sin (h + animateTurn s.keys * (animateSpeed s.keys s.speed * 10)),
           s.carGroup.position.y,
           s.carGroup.position.z + animateSpeed s.keys s.speed
              * M.cos (h + animateTurn s.keys * (animateSpeed s.keys s.speed * 10))⟩ := by
  have hq' : (animateCar M s).quaternion
      = yawQuaternion M (h + animateTurn s.keys * (animateSpeed s.keys s.speed * 10)) := by
    simp only [animateCar, Object3D.translateZ, Object3D.rotateY, hq]
    exact yawQuaternion_multiply hM _ _
  refine ⟨hq', ?_⟩
  have hp : (animateCar M s).position = s.carGroup.position.add
      (((Vector3.mk 0 0 1 : Vector3 K).applyQuaternion
        (animateCar M s).quaternion).multiplyScalar (animateSpeed s.keys s.speed)) := rfl
  rw [hp, hq', applyQuaternion_forward hM]
  simp only [Vector3.add, Vector3.multiplyScalar, Vector3.mk.injEq]
  refine ⟨?_, ?_, ?_⟩ <;> ring

/-- After every trace the vehicle has a heading: its quaternion is a yaw
rotation. -/
theorem run_has_heading {K : Type} [LinearOrderedField K] {M : MathFns K}
    (hM : M.Exact) (es : List Event) :
    ∀ s : State K, (∃ h, s.carGroup.quaternion = yawQuaternion M h) →
      ∃ h, (run M s es).carGroup.quaternion = yawQuaternion M h := by
  induction es with
  | nil => intro s hs; exact hs
  | cons e es ih =>
    intro s hs
    rw [run_cons]
    apply ih
    obtain ⟨h, hq⟩ := hs
    cases e with
    | keydown key => exact ⟨h, by simp only [step, (keydown_rest s key).2.1, hq]⟩
    | keyup key => exact ⟨h, hq⟩
    | frame =>
      exact ⟨_, by
        simp only [step, animate_carGroup]
        exact (animateCar_of_heading hM s h hq).1⟩

/-- The initial quaternion is the yaw rotation of heading zero. -/
theorem initial_heading {K : Type} [LinearOrderedField K] {M : MathFns K} (hM : M.Exact) :
    (State.initial : State K).carGroup.quaternion = yawQuaternion M 0 := by
  simp [State.initial, yawQuaternion, Quaternion.setFromAxisAngle, hM.sin_zero, hM.cos_zero]

/-- The real sine and cosine are exact. -/
theorem real_exact : (MathFns.mk Real.sin Real.cos).Exact where
  sin_zero := Real.sin_zero
  cos_zero := Real.cos_zero
  sin_add := Real.sin_add
  cos_add := Real.cos_add
  sin_sq_add_cos_sq := fun a => by
    have := Real.sin_sq_add_cos_sq a
    nlinarith [this]

/-- C10 (rotate, then translate): in a frame on a vehicle with heading `h`
about the vertical axis, the heading first becomes
`h' = h + turn * (speed * 10)` and the position then moves by
`speed * (sin h', 0, cos h')`, the forward vector of the new heading, with the
vertical coordinate unchanged; after every trace from the initial state the
vehicle has such a heading. -/
theorem rotate_then_translate {K : Type} [LinearOrderedField K] (M : MathFns K)
    (hM : M.Exact) (s : State K) (h : K)
    (hq : s.carGroup.quaternion = yawQuaternion M h) :
    (animate M s).carGroup.quaternion
        = yawQuaternion M (h + (animate M s).turn * ((animate M s).speed * 10)) ∧
      (animate M s).carGroup.position
        = ⟨s.carGroup.position.x + (animate M s).speed
              * M.sin (h + (animate M s).turn * ((animate M s).speed * 10)),
           s.carGroup.position.y,
           s.carGroup.position.z + (animate M s).speed
              * M.cos (h + (animate M s).turn * ((animate M s).speed * 10))⟩ ∧
      (animate M s).carGroup.position.y = s.carGroup.position.y ∧
      (∀ es : List Event, ∃ h0 : K,
        (run M (State.initial : State K) es).carGroup.quaternion = yawQuaternion M h0) := by
  obtain ⟨h1, h2⟩ := animateCar_of_heading hM s h hq
  have e1 : (animate M s).carGroup.quaternion = (animateCar M s).quaternion := rfl
  have e2 : (animate M s).carGroup.position = (animateCar M s).position := rfl
  refine ⟨?_, ?_, ?_, ?_⟩
  · rw [e1, h1, animate_turn, animate_speed]
  · rw [e2, h2, animate_turn, animate_speed]
  · rw [e2, h2]
  · intro es
    exact run_has_heading hM es _ ⟨0, initial_heading hM⟩

theorem rotate_then_translate_witness :
    (run ⟨Real.sin, Real.cos⟩ (State.initial : State ℝ)
        [Event.frame, Event.keydown "w", Event.keydown "a"]).carGroup.quaternion
      = yawQuaternion ⟨Real.sin, Real.cos⟩ 0 ∧
    (animate ⟨Real.sin, Real.cos⟩ (run ⟨Real.sin, Real.cos⟩ (State.initial : State ℝ)
        [Event.frame, Event.keydown "w", Event.keydown "a"])).carGroup.position.y
      = (run ⟨Real.sin, Real.cos⟩ (State.initial : State ℝ)
        [Event.frame, Event.keydown "w", Event.keydown "a"]).carGroup.position.y :=
  have hq : (run ⟨Real.sin, Real.cos⟩ (State.initial : State ℝ)
        [Event.frame, Event.keydown "w", Event.keydown "a"]).carGroup.quaternion
      = yawQuaternion ⟨Real.sin, Real.cos⟩ 0 := by
    simp only [run_cons, run_nil, step, (keydown_rest _ _).2.1, animate_carGroup]
    have := (animateCar_of_heading real_exact (State.initial : State ℝ) 0
      (initial_heading real_exact)).1
    have hs : animateSpeed (State.initial : State ℝ).keys (State.initial : State ℝ).speed = 0 :=
      animateSpeed_rest _ rfl rfl
    rw [hs] at this
    simpa using this
  ⟨hq, (rotate_then_translate ⟨Real.sin, Real.cos⟩ real_exact _ 0 hq).2.2.1⟩

/-! ## The world matrix the camera reads -/

/-- The pose functions do not write the cached world matrix. -/
theorem animateCar_matrixWorld {K : Type} [Field K] (M : MathFns K) (s : State K) :
    (animateCar M s).matrixWorld = s.carGroup.matrixWorld := rfl

/-- The target of a frame is the offset carried through the world matrix
cached before the frame. -/
theorem animateTarget_eq {K : Type} [Field K] (M : MathFns K) (s : State K) :
    animateTarget M s = (camOffset s.viewMode).applyMatrix4 s.carGroup.matrixWorld := rfl

/-- After a frame the cached world matrix is the one of the pose the frame
reached. -/
theorem animate_matrixWorld {K : Type} [Field K] (M : MathFns K) (s : State K) :
    (animate M s).carGroup.matrixWorld = (animateCar M s).poseMatrix := rfl

/-- The key handlers do not write `carGroup`. -/
theorem keys_carGroup {K : Type} [Field K] (M : MathFns K) (s : State K) (es : List Event)
    (hes : ∀ e ∈ es, e ≠ Event.frame) : (run M s es).carGroup = s.carGroup := by
  induction es generalizing s with
  | nil => rfl
  | cons e es ih =>
    rw [run_cons, ih _ (fun e he => hes e (List.mem_cons_of_mem _ he))]
    cases e with
    | keydown key => exact (keydown_rest s key).2.1
    | keyup key => rfl
    | frame => exact absurd rfl (hes Event.frame (List.mem_cons_self _ _))

/-- The target of a frame that follows
another frame, with any key events in between, is the offset carried through
the world matrix of the pose that the earlier frame reached. -/
theorem camera_target_uses_previous_pose {K : Type} [Field K] (M : MathFns K) (s : State K)
    (es : List Event) (hes : ∀ e ∈ es, e ≠ Event.frame) :
    animateTarget M (run M (animate M s) es)
      = (camOffset (run M (animate M s) es).viewMode).applyMatrix4
          (animateCar M s).poseMatrix := by
  rw [animateTarget_eq, keys_carGroup M _ es hes, animate_matrixWorld]

/-- C4 (frame ordering, no camera lag) at the trace frame, `keydown w`, frame:
in the second frame the vehicle moves to `(0, 0, 0.01)`, which is the point
`camera.lookAt` receives, and its post-update transform carries the follow
offset to `(0, 4, -9.99)`; but the target the code computes is `(0, 4, -10)`,
the offset carried through the transform of the end of the first frame. -/
theorem camera_target_lags_one_frame :
    animateLookAt ⟨Real.sin, Real.cos⟩ (run ⟨Real.sin, Real.cos⟩ (State.initial : State ℝ)
        [Event.frame, Event.keydown "w"]) = ⟨0, 0, 0.01⟩ ∧
    (camOffset (run ⟨Real.sin, Real.cos⟩ (State.initial : State ℝ)
        [Event.frame, Event.keydown "w"]).viewMode).applyMatrix4
      (animateCar ⟨Real.sin, Real.cos⟩ (run ⟨Real.sin, Real.cos⟩ (State.initial : State ℝ)
        [Event.frame, Event.keydown "w"])).poseMatrix = ⟨0, 4, -9.99⟩ ∧
    animateTarget ⟨Real.sin, Real.cos⟩ (run ⟨Real.sin, Real.cos⟩ (State.initial : State ℝ)
        [Event.frame, Event.keydown "w"]) = ⟨0, 4, -10⟩ ∧
    (camOffset (run ⟨Real.sin, Real.cos⟩ (State.initial : State ℝ)
        [Event.frame, Event.keydown "w"]).viewMode).applyMatrix4
      (animateCar ⟨Real.sin, Real.cos⟩ (State.initial : State ℝ)).poseMatrix = ⟨0, 4, -10⟩ := by
  have hs1 : run ⟨Real.sin, Real.cos⟩ (State.initial : State ℝ)
      [Event.frame, Event.keydown "w"]
      = keydown (animate ⟨Real.sin, Real.cos⟩ (State.initial : State ℝ)) "w" := rfl
  have hsp0 : animateSpeed (State.initial : State ℝ).keys (State.initial : State ℝ).speed = 0 :=
    animateSpeed_rest _ rfl rfl
  have hcar0 : animateCar ⟨Real.sin, Real.cos⟩ (State.initial : State ℝ)
      = ⟨⟨0, 0, 0⟩, ⟨0, 0, 0, 1⟩, Matrix4.identity⟩ := by
    simp only [animateCar, hsp0, zero_mul, mul_zero,
      Object3D.rotateY_zero (MathFns.mk Real.sin Real.cos) Real.sin_zero Real.cos_zero]
    simp [Object3D.translateZ, Vector3.applyQuaternion, Vector3.add,
      Vector3.multiplyScalar, State.initial]
  have hpose0 : (animateCar ⟨Real.sin, Real.cos⟩ (State.initial : State ℝ)).poseMatrix
      = Matrix4.identity := by
    rw [hcar0]
    simp [Object3D.poseMatrix, Object3D.updateMatrixWorld, Matrix4.compose,
      Matrix4.multiplyMatrices, Matrix4.identity]
  have hcar1 : (keydown (animate ⟨Real.sin, Real.cos⟩ (State.initial : State ℝ)) "w").carGroup
      = ⟨⟨0, 0, 0⟩, ⟨0, 0, 0, 1⟩, Matrix4.identity⟩ := by
    rw [(keydown_rest _ _).2.1, animate_carGroup]
    have hm := hpose0
    rw [Object3D.poseMatrix] at hm
    rw [hcar0] at hm ⊢
    cases hu : (Object3D.mk (Vector3.mk (0 : ℝ) 0 0) (Quaternion.mk 0 0 0 1)
      Matrix4.identity).updateMatrixWorld with
    | mk p q m =>
      rw [hu] at hm
      have hp : (Object3D.mk (Vector3.mk (0 : ℝ) 0 0) (Quaternion.mk 0 0 0 1)
        Matrix4.identity).updateMatrixWorld.position = p := by rw [hu]
      have hq : (Object3D.mk (Vector3.mk (0 : ℝ) 0 0) (Quaternion.mk 0 0 0 1)
        Matrix4.identity).updateMatrixWorld.quaternion = q := by rw [hu]
      simp only [Object3D.updateMatrixWorld] at hp hq
      simp only at hm
      rw [← hp, ← hq, hm]
  have hview1 : (keydown (animate ⟨Real.sin, Real.cos⟩ (State.initial : State ℝ)) "w").viewMode
      = "follow" := by
    rw [keydown_viewMode]
    rfl
  have hsp1 : animateSpeed
      (keydown (animate ⟨Real.sin, Real.cos⟩ (State.initial : State ℝ)) "w").keys
      (keydown (animate ⟨Real.sin, Real.cos⟩ (State.initial : State ℝ)) "w").speed = 0.01 := by
    rw [keydown_speed, animate_speed, hsp0]
    simp only [animateSpeed, keydown_keys, toLower_w, if_true, MathUtils.lerp]
    norm_num
  have htn1 : animateTurn
      (keydown (animate ⟨Real.sin, Real.cos⟩ (State.initial : State ℝ)) "w").keys
      = (0 : ℝ) := by
    simp [animateTurn, keydown_keys, toLower_w, animate_keys, State.initial]
  have hcar2 : animateCar ⟨Real.sin, Real.cos⟩
      (keydown (animate ⟨Real.sin, Real.cos⟩ (State.initial : State ℝ)) "w")
      = ⟨⟨0, 0, 0.01⟩, ⟨0, 0, 0, 1⟩, Matrix4.identity⟩ := by
    simp only [animateCar, hsp1, htn1, zero_mul,
      Object3D.rotateY_zero (MathFns.mk Real.sin Real.cos) Real.sin_zero Real.cos_zero, hcar1]
    simp [Object3D.translateZ, Vector3.applyQuaternion, Vector3.add,
      Vector3.multiplyScalar]
  rw [hs1]
  refine ⟨?_, ?_, ?_, ?_⟩
  · rw [animateLookAt, hcar2]
  · rw [hcar2, hview1]
    simp only [Object3D.poseMatrix, Object3D.updateMatrixWorld, Matrix4.compose,
      Matrix4.multiplyMatrices, Matrix4.identity, camOffset, Vector3.set,
      Vector3.applyMatrix4, if_true, Vector3.mk.injEq]
    refine ⟨?_, ?_, ?_⟩ <;> norm_num
  · rw [animateTarget_eq, hcar1, hview1]
    simp only [Matrix4.identity, camOffset, Vector3.set,
      Vector3.applyMatrix4, if_true, Vector3.mk.injEq]
    refine ⟨?_, ?_, ?_⟩ <;> norm_num
  · rw [hpose0, hview1]
    simp only [Matrix4.identity, camOffset, Vector3.set,
      Vector3.applyMatrix4, if_true, Vector3.mk.injEq]
    refine ⟨?_, ?_, ?_⟩ <;> norm_num

end CarAnimation
